import Mathlib

/-!
# Shallow embedding of the Quota-Activator trigger engine

Verification of the natural-language specification of the Quota-Activator
repository against its Go source.  Absolute instants (`time.Time`) are
modelled as `Int` seconds since the Unix epoch (1970-01-01T00:00:00Z, a UTC
midnight, so Go's `Truncate(24*time.Hour)` — which truncates to multiples of
24 h from the zero time, also a UTC midnight — is truncation to multiples of
86400 here).  Go strings are modelled as lists of characters.  The process's
local time zone is modelled as a fixed offset `off` (seconds east of UTC);
Go's civil-time conversions for a fixed-offset zone are exact integer
arithmetic on this representation.
-/

/-- Go strings, modelled as lists of characters. -/
abbrev Str := List Char

/-- Seconds-since-midnight of an absolute instant in UTC, as computed by the
source's `t.Hour()*3600 + t.Minute()*60 + t.Second()` for a `time.Time`
carrying the UTC location.  `Int.emod` is a floor-style remainder for the
positive modulus, matching Go's civil-calendar decomposition also for
instants before the epoch. -/
def secOfDay (t : Int) : Nat := (t % 86400).toNat

/-- Day number of a proleptic-Gregorian civil date relative to 1970-01-01
(Hinnant's `days_from_civil`), used to write the concrete instants appearing
in the spec's examples. -/
def daysFromCivil (y m d : Int) : Int :=
  let y2 := if m ≤ 2 then y - 1 else y
  let era := (if 0 ≤ y2 then y2 else y2 - 399) / 400
  let yoe := y2 - era * 400
  let doy := (153 * (if 2 < m then m - 3 else m + 9) + 2) / 5 + d - 1
  let doe := yoe * 365 + yoe / 4 - yoe / 100 + doy
  era * 146097 + doe - 719468

/-- `time.Date(y, mo, d, h, mi, 0, 0, loc)` for a fixed-offset location `off`:
the absolute instant of that civil date-time. -/
def timeDate (off y mo d h mi : Int) : Int :=
  daysFromCivil y mo d * 86400 + h * 3600 + mi * 60 - off

/-- `strings.Split(t, ":")` on character lists. -/
def splitOnColon : Str → List Str
  | [] => [[]]
  | c :: rest =>
    if c = ':' then [] :: splitOnColon rest
    else
      match splitOnColon rest with
      | [] => [[c]]
      | h :: t => (c :: h) :: t

/-- Value of a nonempty run of decimal digits; `none` otherwise.  These are
the field shapes accepted by `fmt.Sscanf("%d")` that can also pass the
`isValidTimeFormat` range checks; exotic `Sscanf` spellings (signs, leading
spaces) are rejected by the source's validation and never reach the engine. -/
def digitsVal : Str → Option Int
  | [] => none
  | c :: cs =>
    if (c :: cs).all Char.isDigit then
      some (((c :: cs).foldl (fun n ch => n * 10 + (ch.toNat - 48)) 0 : Nat) : Int)
    else none

/-- `fmt.Sscanf(t, "%d:%d", &hour, &min)`: both parsed fields, or `none` on a
scan error. -/
def scanHourMin (t : Str) : Option (Int × Int) :=
  match splitOnColon t with
  | [h, m] =>
    match digitsVal h, digitsVal m with
    | some hv, some mv => some (hv, mv)
    | _, _ => none
  | _ => none

/-- `config.isValidTimeFormat`: exactly two `:`-separated numeric fields with
hour in [0, 23] and minute in [0, 59]. -/
def isValidTimeFormat (t : Str) : Bool :=
  match scanHourMin t with
  | some (hour, mi) => decide (0 ≤ hour) && decide (hour ≤ 23) && decide (0 ≤ mi) && decide (mi ≤ 59)
  | none => false

/-- `config.parseTime`: the scan error is ignored, leaving Go zero values. -/
def parseTime (t : Str) : Int × Int := (scanHourMin t).getD (0, 0)

/-- `config.timeOfDay`. -/
structure timeOfDay where
  hour : Int
  min : Int
deriving DecidableEq

/-- `timeOfDay.toTime`: `time.Date(2000, 1, 1, hour, min, 0, 0, time.UTC)`. -/
def timeOfDay.toTime (tod : timeOfDay) : Int :=
  timeDate 0 2000 1 1 tod.hour tod.min

/-- `config.isTimeInRange`: whether `t` lies in `[start, stop)` by
time-of-day; the wraparound branch is taken whenever `startSec ≥ endSec`. -/
def isTimeInRange (t start stop : Int) : Bool :=
  let tSec := secOfDay t
  let startSec := secOfDay start
  let endSec := secOfDay stop
  if startSec < endSec then decide (startSec ≤ tSec) && decide (tSec < endSec)
  else decide (startSec ≤ tSec) || decide (tSec < endSec)

/-- `config.formatTime`: `fmt.Sprintf("%02d:%02d", t.Hour(), t.Minute())`. -/
def formatTime (t : Int) : Str :=
  let hour := secOfDay t / 3600
  let mi := secOfDay t % 3600 / 60
  [Nat.digitChar (hour / 10), Nat.digitChar (hour % 10), ':',
   Nat.digitChar (mi / 10), Nat.digitChar (mi % 10)]

/-- The distinct `fmt.Errorf` arguments of the conflict diagnostic, in source
order: the two target-time strings (indexed from the original slice), the two
formatted trigger times, the reported window bounds, and the required
spacing. -/
structure ConflictError where
  timeI : Str
  timeJ : Str
  trigI : Str
  trigJ : Str
  winStart : Str
  winEnd : Str
  spacing : Int
deriving DecidableEq

/-- The `parsedTimes` slice built at the top of
`validateTargetTimesConflict`. -/
def parsedTimes (targetTimes : List Str) : List timeOfDay :=
  targetTimes.map (fun t => let p := parseTime t; ⟨p.1, p.2⟩)

/-- The `sort.Slice` comparison of `validateTargetTimesConflict` (ascending
by hour, then minute), as the total preorder the sorted slice satisfies.
Go's `sort.Slice` guarantees a permutation ordered by this relation; it is
modelled by insertion sort (Go's sort is unstable, so any sorted permutation
is a faithful model; all inputs below have no ties). -/
def todR (a b : timeOfDay) : Prop :=
  a.hour < b.hour ∨ (a.hour = b.hour ∧ a.min ≤ b.min)

instance : DecidableRel todR := fun a b => by unfold todR; infer_instance

instance : IsTotal timeOfDay todR :=
  ⟨fun a b => by unfold todR; omega⟩

instance : IsTrans timeOfDay todR :=
  ⟨fun a b c hab hbc => by unfold todR at *; omega⟩

/-- The inner-loop conflict test: does sorted entry `i`'s trigger fall inside
the quota window opened by sorted entry `j`'s trigger? -/
def conflictAt (sorted : List timeOfDay) (interval : Int) (i j : Nat) : Bool :=
  let targetTrigger := (sorted.getD i ⟨0, 0⟩).toTime - interval
  let otherTrigger := (sorted.getD j ⟨0, 0⟩).toTime - interval
  let quotaEnd := otherTrigger + interval
  isTimeInRange targetTrigger otherTrigger quotaEnd

/-- `config.validateTargetTimesConflict`: parse, sort, then scan all ordered
pairs `(i, j)`, `i ≠ j`, in loop order; the first conflicting pair produces
the diagnostic.  Note the original (unsorted) `targetTimes` slice is indexed
with the sorted positions `i`, `j`, exactly as in the source. -/
def validateTargetTimesConflict (targetTimes : List Str) (intervalHours : Int) : Option ConflictError :=
  let sorted := (parsedTimes targetTimes).insertionSort todR
  let interval := intervalHours * 3600
  (List.range sorted.length).findSome? (fun i =>
    (List.range sorted.length).findSome? (fun j =>
      if i = j then none
      else if conflictAt sorted interval i j then
        some { timeI := targetTimes.getD i [], timeJ := targetTimes.getD j [],
               trigI := formatTime ((sorted.getD i ⟨0, 0⟩).toTime - interval),
               trigJ := formatTime ((sorted.getD j ⟨0, 0⟩).toTime - interval),
               winStart := formatTime ((sorted.getD j ⟨0, 0⟩).toTime - interval),
               winEnd := formatTime ((sorted.getD j ⟨0, 0⟩).toTime - interval + interval),
               spacing := intervalHours }
      else none))

/-- `scheduler.DailyTrigger`. -/
structure DailyTrigger where
  TargetTime : Str
  TriggerTime : Int
deriving DecidableEq

/-- The `sort.Slice` comparison of `CalculateDailyTriggers` (ascending
trigger instant, `Before`), as the total preorder of the sorted output. -/
def trigR (a b : DailyTrigger) : Prop := a.TriggerTime ≤ b.TriggerTime

instance : DecidableRel trigR := fun a b => by unfold trigR; infer_instance

instance : IsTotal DailyTrigger trigR :=
  ⟨fun a b => by unfold trigR; omega⟩

instance : IsTrans DailyTrigger trigR :=
  ⟨fun a b c hab hbc => by unfold trigR at *; omega⟩

/-- `time.Date(t.Year(), t.Month(), t.Day(), 0, 0, 0, 0, t.Location())` for a
fixed offset `off`: the local midnight of the local calendar day containing
`t`. -/
def localMidnight (off t : Int) : Int := t - (t + off) % 86400

/-- The per-target body of `CalculateDailyTriggers`' loop: scan the target
string (a scan error skips the entry), place the target time on `date`'s
local calendar day, and shift by `- interval + buffer`. -/
def rawTrigger (off date interval buffer : Int) (targetStr : Str) : Option DailyTrigger :=
  match scanHourMin targetStr with
  | none => none
  | some (hour, mi) =>
    let targetTime := localMidnight off date + hour * 3600 + mi * 60
    some { TargetTime := targetStr, TriggerTime := targetTime - interval + buffer }

/-- `scheduler.CalculateDailyTriggers`: one trigger per parsable target time
at `(date's local day at target) − intervalHours + bufferSeconds`, sorted
ascending by trigger instant. -/
def CalculateDailyTriggers (off date : Int) (targetTimes : List Str) (intervalHours bufferSeconds : Int) : List DailyTrigger :=
  let interval := intervalHours * 3600
  let buffer := bufferSeconds
  (targetTimes.filterMap (rawTrigger off date interval buffer)).insertionSort trigR

/-- `scheduler.NextTrigger`: `now.Truncate(24*time.Hour)` truncates to
multiples of 24 h from Go's zero time, i.e. to UTC day boundaries. -/
def NextTrigger (off now : Int) (targetTimes : List Str) (intervalHours bufferSeconds : Int) : DailyTrigger × Int :=
  let today := now - now % 86400
  let triggers := CalculateDailyTriggers off today targetTimes intervalHours bufferSeconds
  match triggers.find? (fun t => decide (now < t.TriggerTime)) with
  | some t => (t, today)
  | none =>
    let tomorrow := today + 86400
    match CalculateDailyTriggers off tomorrow targetTimes intervalHours bufferSeconds with
    | t :: _ => (t, tomorrow)
    | [] => ({ TargetTime := [], TriggerTime := now + 86400 }, tomorrow)

/-- The trigger time-of-day instant derived from position `k` of a target
list, as the validator computes it: `parsedTimes[k].toTime() - interval`. -/
def triggerOf (ts : List Str) (iv : Int) (k : Nat) : Int :=
  ((parsedTimes ts).getD k ⟨0, 0⟩).toTime - iv * 3600

/-- Seconds-after-local-midnight of a parsed target string. -/
def targetSecs (s : Str) : Int :=
  (parseTime s).1 * 3600 + (parseTime s).2 * 60

/-- Modelled from the spec (§4.1 wording) for refinement comparison with
`isTimeInRange`: ordinary containment when `start ≤ end`, wraparound only
when `start > end`. -/
def specInInterval (t start stop : Int) : Bool :=
  if secOfDay start ≤ secOfDay stop then
    decide (secOfDay start ≤ secOfDay t) && decide (secOfDay t < secOfDay stop)
  else
    decide (secOfDay start ≤ secOfDay t) || decide (secOfDay t < secOfDay stop)

/-- Modelled from the spec (§4.3 wording) for refinement comparison with
`NextTrigger`: identical search, except that "today" is now truncated to the
start of day in **local** time, as the spec describes. -/
def specNextTrigger (off now : Int) (targetTimes : List Str) (intervalHours bufferSeconds : Int) : DailyTrigger × Int :=
  let today := now - (now + off) % 86400
  let triggers := CalculateDailyTriggers off today targetTimes intervalHours bufferSeconds
  match triggers.find? (fun t => decide (now < t.TriggerTime)) with
  | some t => (t, today)
  | none =>
    let tomorrow := today + 86400
    match CalculateDailyTriggers off tomorrow targetTimes intervalHours bufferSeconds with
    | t :: _ => (t, tomorrow)
    | [] => ({ TargetTime := [], TriggerTime := now + 86400 }, tomorrow)

/-- `config.SchedulerConfig` (the fields `Scheduler.Start` reads). -/
structure SchedulerConfig where
  IntervalHours : Int
  TargetTimes : List Str
  SafetyBufferSeconds : Int
deriving DecidableEq

/-- Which arm of the wait `select` becomes ready first: the
`time.After(duration)` timer, or `ctx.Done()`. -/
inductive WaitOutcome where
  | timer
  | ctxDone
deriving DecidableEq

/-- The non-deterministic inputs one iteration of `Scheduler.Start`'s loop
observes: channel readiness in the two `select`s, the two `time.Now()`
reads, and the outcome of the opaque `platform.Trigger` action. -/
structure IterEnv where
  ctxDoneAtTop : Bool
  waitOutcome : WaitOutcome
  triggerErr : Option Str
  nowAtTop : Int
  nowAfterFire : Int
deriving DecidableEq

/-- The observable outcome of one iteration of `Scheduler.Start`'s loop:
either the loop returned `ctx.Err()` (terminating), or it continues with a
freshly recomputed next trigger.  `fired` records whether `platform.Trigger`
was invoked in the iteration, `failureLogged` whether its `[ERROR]` logging
branch ran (the error value itself is never propagated). -/
inductive IterResult where
  | terminated (fired : Bool)
  | continues (fired : Bool) (failureLogged : Bool) (next : DailyTrigger) (nextDate : Int)
deriving DecidableEq

/-- The tail of a loop iteration after the wait (if any) has elapsed:
invoke `platform.Trigger`, log the outcome, and recompute the next trigger
from a fresh `time.Now()`. -/
def fireStep (off : Int) (cfg : SchedulerConfig) (env : IterEnv) : IterResult :=
  let p := NextTrigger off env.nowAfterFire cfg.TargetTimes cfg.IntervalHours cfg.SafetyBufferSeconds
  .continues true env.triggerErr.isSome p.1 p.2

/-- One iteration of the `for` loop in `Scheduler.Start`, given the trigger
`nextTrigger` computed by the previous iteration (or at startup): the
top-of-loop `select` on `ctx.Done()`, then — when the trigger instant is
still in the future — the waiting `select` racing the timer against
cancellation, then the firing tail. -/
def schedulerIter (off : Int) (cfg : SchedulerConfig) (nextTrigger : DailyTrigger) (env : IterEnv) : IterResult :=
  if env.ctxDoneAtTop then .terminated false
  else if env.nowAtTop < nextTrigger.TriggerTime then
    match env.waitOutcome with
    | .ctxDone => .terminated false
    | .timer => fireStep off cfg env
  else fireStep off cfg env

/-!
## Helper lemmas

Positions-versus-values machinery for the validator's double loop, order
lemmas for the calculator's sorted output, and branch lemmas for
`NextTrigger`.  These are shared infrastructure, not claim theorems.
-/

/-- Some ordered pair of distinct positions of `l` is related by `P` (the
shape of `validateTargetTimesConflict`'s double loop). -/
def hasPairAt {α : Type} (P : α → α → Prop) (l : List α) : Prop :=
  ∃ i j, ∃ hi : i < l.length, ∃ hj : j < l.length, i ≠ j ∧ P l[i] l[j]

theorem aux_count_two_of_pair {α : Type} [DecidableEq α] {l : List α} {x : α} :
    ∀ {i j : Nat} (hi : i < l.length) (hj : j < l.length),
      i ≠ j → l[i] = x → l[j] = x → 2 ≤ l.count x := by
  induction l with
  | nil => intro i j hi _ _ _ _; exact absurd hi (by simp)
  | cons a t ih =>
    intro i j hi hj hij hx hy
    match i, j with
    | 0, 0 => exact absurd rfl hij
    | 0, j' + 1 =>
      simp only [List.getElem_cons_zero] at hx
      simp only [List.getElem_cons_succ] at hy
      have hmem : x ∈ t := hy ▸ List.getElem_mem _
      have h1 : 0 < t.count x := List.count_pos_iff.mpr hmem
      rw [hx, List.count_cons_self]
      omega
    | i' + 1, 0 =>
      simp only [List.getElem_cons_zero] at hy
      simp only [List.getElem_cons_succ] at hx
      have hmem : x ∈ t := hx ▸ List.getElem_mem _
      have h1 : 0 < t.count x := List.count_pos_iff.mpr hmem
      rw [hy, List.count_cons_self]
      omega
    | i' + 1, j' + 1 =>
      simp only [List.getElem_cons_succ] at hx hy
      have h2 := ih (i := i') (j := j') (by simpa using hi) (by simpa using hj)
        (by omega) hx hy
      have h3 := List.count_cons x a t
      omega

theorem aux_pair_of_count_two {α : Type} [DecidableEq α] {l : List α} {x : α}
    (h : 2 ≤ l.count x) :
    ∃ i j, ∃ hi : i < l.length, ∃ hj : j < l.length, i ≠ j ∧ l[i] = x ∧ l[j] = x := by
  induction l with
  | nil => simp at h
  | cons a t ih =>
    by_cases hax : a = x
    · subst hax
      rw [List.count_cons_self] at h
      have hmem : a ∈ t := List.count_pos_iff.mp (by omega)
      obtain ⟨k, hk, hkx⟩ := List.getElem_of_mem hmem
      exact ⟨0, k + 1, by simp, by simpa using hk, by omega, by simp, by simpa using hkx⟩
    · have hcnt : 2 ≤ t.count x := by
        have h3 := List.count_cons x a t
        simp only [beq_iff_eq] at h3
        rw [if_neg hax] at h3
        omega
      obtain ⟨i, j, hi, hj, hij, hx1, hx2⟩ := ih hcnt
      exact ⟨i + 1, j + 1, by simpa using hi, by simpa using hj, by omega,
        by simpa using hx1, by simpa using hx2⟩

theorem aux_hasPairAt_iff {α : Type} [DecidableEq α] (P : α → α → Prop) (l : List α) :
    hasPairAt P l ↔ ∃ x ∈ l, ∃ y ∈ l, P x y ∧ (x ≠ y ∨ 2 ≤ l.count x) := by
  constructor
  · rintro ⟨i, j, hi, hj, hij, hP⟩
    refine ⟨l[i], List.getElem_mem hi, l[j], List.getElem_mem hj, hP, ?_⟩
    by_cases hxy : l[i] = l[j]
    · exact Or.inr (aux_count_two_of_pair hi hj hij rfl hxy.symm)
    · exact Or.inl hxy
  · rintro ⟨x, hx, y, hy, hP, hd⟩
    by_cases hxy : x = y
    · subst hxy
      have hcnt : 2 ≤ l.count x := by
        rcases hd with hd | hd
        · exact absurd rfl hd
        · exact hd
      obtain ⟨i, j, hi, hj, hij, hx1, hx2⟩ := aux_pair_of_count_two hcnt
      exact ⟨i, j, hi, hj, hij, by rw [hx1, hx2]; exact hP⟩
    · obtain ⟨i, hi, hix⟩ := List.getElem_of_mem hx
      obtain ⟨j, hj, hjy⟩ := List.getElem_of_mem hy
      have hij : i ≠ j := by
        intro hh
        subst hh
        exact hxy (hix ▸ hjy ▸ rfl)
      exact ⟨i, j, hi, hj, hij, by rw [hix, hjy]; exact hP⟩

theorem aux_hasPairAt_perm {α : Type} [DecidableEq α] {P : α → α → Prop} {l l' : List α}
    (h : l.Perm l') : hasPairAt P l ↔ hasPairAt P l' := by
  rw [aux_hasPairAt_iff, aux_hasPairAt_iff]
  constructor
  · rintro ⟨x, hx, y, hy, hP, hd⟩
    refine ⟨x, h.mem_iff.mp hx, y, h.mem_iff.mp hy, hP, ?_⟩
    rcases hd with hd | hd
    · exact Or.inl hd
    · exact Or.inr (h.count_eq x ▸ hd)
  · rintro ⟨x, hx, y, hy, hP, hd⟩
    refine ⟨x, h.mem_iff.mpr hx, y, h.mem_iff.mpr hy, hP, ?_⟩
    rcases hd with hd | hd
    · exact Or.inl hd
    · exact Or.inr ((h.count_eq x).symm ▸ hd)

/-- The conflict relation on parsed values: `a`'s trigger falls inside the
quota window opened by `b`'s trigger. -/
def conflictPair (interval : Int) (a b : timeOfDay) : Prop :=
  isTimeInRange (a.toTime - interval) (b.toTime - interval)
    (b.toTime - interval + interval) = true

theorem aux_conflictAt_eq (l : List timeOfDay) (interval : Int) {i j : Nat}
    (hi : i < l.length) (hj : j < l.length) :
    conflictAt l interval i j =
      isTimeInRange (l[i].toTime - interval) (l[j].toTime - interval)
        (l[j].toTime - interval + interval) := by
  unfold conflictAt
  rw [List.getD_eq_getElem l _ hi, List.getD_eq_getElem l _ hj]

theorem aux_no_pair_iff {α : Type} (P : α → α → Prop) (l : List α) :
    (∀ i j (_ : i < l.length) (_ : j < l.length), i ≠ j → ¬ P l[i] l[j]) ↔
      ¬ hasPairAt P l := by
  constructor
  · rintro h ⟨i, j, hi, hj, hij, hP⟩
    exact h i j hi hj hij hP
  · intro h i j hi hj hij hP
    exact h ⟨i, j, hi, hj, hij, hP⟩

theorem aux_validate_none_iff_sorted (ts : List Str) (iv : Int) :
    validateTargetTimesConflict ts iv = none ↔
      ∀ i j (_ : i < ((parsedTimes ts).insertionSort todR).length)
            (_ : j < ((parsedTimes ts).insertionSort todR).length),
        i ≠ j → conflictAt ((parsedTimes ts).insertionSort todR) (iv * 3600) i j = false := by
  simp only [validateTargetTimesConflict, List.findSome?_eq_none_iff, List.mem_range]
  constructor
  · intro h i j hi hj hij
    have h2 := h i hi j hj
    rw [if_neg hij] at h2
    cases hb : conflictAt ((parsedTimes ts).insertionSort todR) (iv * 3600) i j with
    | false => rfl
    | true => rw [if_pos hb] at h2; exact absurd h2 (by simp)
  · intro h i hi j hj
    by_cases hij : i = j
    · rw [if_pos hij]
    · rw [if_neg hij, if_neg]
      rw [h i j hi hj hij]
      simp

theorem aux_sorted_forall_iff (l : List timeOfDay) (interval : Int) :
    (∀ i j (_ : i < l.length) (_ : j < l.length), i ≠ j → conflictAt l interval i j = false) ↔
      ¬ hasPairAt (conflictPair interval) l := by
  rw [← aux_no_pair_iff]
  constructor
  · intro h i j hi hj hij
    unfold conflictPair
    rw [← aux_conflictAt_eq l interval hi hj, h i j hi hj hij]
    simp
  · intro h i j hi hj hij
    have h2 := h i j hi hj hij
    unfold conflictPair at h2
    rw [← aux_conflictAt_eq l interval hi hj] at h2
    cases hb : conflictAt l interval i j with
    | false => rfl
    | true => exact absurd hb h2

theorem aux_validate_none_iff (ts : List Str) (iv : Int) :
    validateTargetTimesConflict ts iv = none ↔
      ∀ i j (_ : i < (parsedTimes ts).length) (_ : j < (parsedTimes ts).length),
        i ≠ j → ¬ conflictPair (iv * 3600) (parsedTimes ts)[i] (parsedTimes ts)[j] := by
  rw [aux_validate_none_iff_sorted, aux_sorted_forall_iff,
    aux_hasPairAt_perm (List.perm_insertionSort todR (parsedTimes ts)), ← aux_no_pair_iff]

theorem aux_calc_sorted (off date : Int) (ts : List Str) (iv b : Int) :
    List.Sorted trigR (CalculateDailyTriggers off date ts iv b) := by
  simp only [CalculateDailyTriggers]
  exact List.sorted_insertionSort trigR _

theorem aux_calc_perm (off date : Int) (ts : List Str) (iv b : Int) :
    (CalculateDailyTriggers off date ts iv b).Perm
      (ts.filterMap (rawTrigger off date (iv * 3600) b)) := by
  simp only [CalculateDailyTriggers]
  exact List.perm_insertionSort trigR _

theorem aux_mem_calc {off date : Int} {ts : List Str} {iv b : Int} {t : DailyTrigger} :
    t ∈ CalculateDailyTriggers off date ts iv b ↔
      ∃ s ∈ ts, rawTrigger off date (iv * 3600) b s = some t := by
  rw [(aux_calc_perm off date ts iv b).mem_iff]
  exact List.mem_filterMap

theorem aux_rawTrigger_of_valid {s : Str} (h : isValidTimeFormat s = true)
    (off date interval buffer : Int) :
    rawTrigger off date interval buffer s =
      some ⟨s, localMidnight off date + (parseTime s).1 * 3600 + (parseTime s).2 * 60
                 - interval + buffer⟩ := by
  unfold isValidTimeFormat at h
  unfold rawTrigger parseTime
  cases hs : scanHourMin s with
  | none => rw [hs] at h; exact absurd h (by simp)
  | some p =>
    cases p with
    | mk hv mv => rfl

theorem aux_filterMap_eq_map_of_valid (off date interval buffer : Int) {ts : List Str}
    (h : ∀ s ∈ ts, isValidTimeFormat s = true) :
    ts.filterMap (rawTrigger off date interval buffer) =
      ts.map (fun s => ⟨s, localMidnight off date + (parseTime s).1 * 3600
                            + (parseTime s).2 * 60 - interval + buffer⟩) := by
  induction ts with
  | nil => rfl
  | cons a t ih =>
    rw [List.filterMap_cons, aux_rawTrigger_of_valid (h a (List.mem_cons_self a t)) off date
      interval buffer, List.map_cons, ih (fun s hs => h s (List.mem_cons_of_mem a hs))]

theorem aux_calc_length_of_valid (off date : Int) {ts : List Str} (iv b : Int)
    (h : ∀ s ∈ ts, isValidTimeFormat s = true) :
    (CalculateDailyTriggers off date ts iv b).length = ts.length := by
  simp only [CalculateDailyTriggers]
  rw [List.length_insertionSort, aux_filterMap_eq_map_of_valid _ _ _ _ h, List.length_map]

theorem aux_calc_ne_nil (off date : Int) {ts : List Str} (iv b : Int)
    (hne : ts ≠ []) (hvalid : ∀ s ∈ ts, isValidTimeFormat s = true) :
    CalculateDailyTriggers off date ts iv b ≠ [] := by
  intro hc
  have h1 := aux_calc_length_of_valid off date iv b hvalid
  rw [hc] at h1
  exact hne (List.eq_nil_of_length_eq_zero h1.symm)

theorem aux_find?_min_of_sorted {l : List DailyTrigger} {p : DailyTrigger → Bool}
    {x : DailyTrigger} (hs : List.Sorted trigR l) (hf : l.find? p = some x) :
    ∀ y ∈ l, p y = true → x.TriggerTime ≤ y.TriggerTime := by
  induction l with
  | nil => simp at hf
  | cons a t ih =>
    rw [List.sorted_cons] at hs
    by_cases hpa : p a = true
    · rw [List.find?_cons_of_pos t hpa] at hf
      injection hf with hax
      subst hax
      intro y hy hpy
      rcases List.mem_cons.mp hy with rfl | hyt
      · exact le_refl _
      · exact hs.1 y hyt
    · rw [List.find?_cons_of_neg t hpa] at hf
      intro y hy hpy
      rcases List.mem_cons.mp hy with rfl | hyt
      · exact absurd hpy hpa
      · exact ih hs.2 hf y hyt hpy

theorem aux_nextTrigger_exists {off now : Int} {ts : List Str} {iv b : Int}
    (hex : ∃ t ∈ CalculateDailyTriggers off (now - now % 86400) ts iv b,
             now < t.TriggerTime) :
    (NextTrigger off now ts iv b).1 ∈ CalculateDailyTriggers off (now - now % 86400) ts iv b ∧
    now < (NextTrigger off now ts iv b).1.TriggerTime ∧
    (∀ u ∈ CalculateDailyTriggers off (now - now % 86400) ts iv b,
       now < u.TriggerTime → (NextTrigger off now ts iv b).1.TriggerTime ≤ u.TriggerTime) ∧
    (NextTrigger off now ts iv b).2 = now - now % 86400 := by
  cases hf : (CalculateDailyTriggers off (now - now % 86400) ts iv b).find?
      (fun t => decide (now < t.TriggerTime)) with
  | none =>
    rw [List.find?_eq_none] at hf
    obtain ⟨t, ht, hlt⟩ := hex
    exact absurd (by simpa using hlt) (hf t ht)
  | some x =>
    have hNT : NextTrigger off now ts iv b = (x, now - now % 86400) := by
      simp only [NextTrigger]
      rw [hf]
    rw [hNT]
    refine ⟨List.mem_of_find?_eq_some hf, by simpa using List.find?_some hf, ?_, rfl⟩
    intro u hu hlt
    exact aux_find?_min_of_sorted (aux_calc_sorted off (now - now % 86400) ts iv b) hf u hu
      (by simpa using hlt)

theorem aux_nextTrigger_tomorrow {off now : Int} {ts : List Str} {iv b : Int}
    (hnone : ∀ t ∈ CalculateDailyTriggers off (now - now % 86400) ts iv b,
               ¬ now < t.TriggerTime)
    (hne : CalculateDailyTriggers off (now - now % 86400 + 86400) ts iv b ≠ []) :
    (NextTrigger off now ts iv b).1 ∈
        CalculateDailyTriggers off (now - now % 86400 + 86400) ts iv b ∧
    (∀ u ∈ CalculateDailyTriggers off (now - now % 86400 + 86400) ts iv b,
       (NextTrigger off now ts iv b).1.TriggerTime ≤ u.TriggerTime) ∧
    (NextTrigger off now ts iv b).2 = now - now % 86400 + 86400 := by
  have hf : (CalculateDailyTriggers off (now - now % 86400) ts iv b).find?
      (fun t => decide (now < t.TriggerTime)) = none := by
    rw [List.find?_eq_none]
    intro t ht
    simpa using hnone t ht
  cases hcalc : CalculateDailyTriggers off (now - now % 86400 + 86400) ts iv b with
  | nil => exact absurd hcalc hne
  | cons t rest =>
    have hNT : NextTrigger off now ts iv b = (t, now - now % 86400 + 86400) := by
      simp only [NextTrigger]
      rw [hf, hcalc]
    have hsorted := aux_calc_sorted off (now - now % 86400 + 86400) ts iv b
    rw [hcalc, List.sorted_cons] at hsorted
    rw [hNT]
    refine ⟨List.mem_cons_self t rest, ?_, rfl⟩
    intro u hu
    rcases List.mem_cons.mp hu with rfl | hur
    · exact le_refl _
    · exact hsorted.1 u hur

theorem aux_triggerOf_eq {ts : List Str} {k : Nat} (iv : Int)
    (hk : k < (parsedTimes ts).length) :
    triggerOf ts iv k = (parsedTimes ts)[k].toTime - iv * 3600 := by
  unfold triggerOf
  rw [List.getD_eq_getElem _ _ hk]

theorem aux_secOfDay_add_day_multiple (x k : Int) : secOfDay (x + 86400 * k) = secOfDay x := by
  unfold secOfDay
  rw [Int.add_mul_emod_self_left]

/-!
## Claim theorems
-/

/-- C1: conflict validation succeeds exactly when no ordered pair of distinct
positions `(i, j)` of the target list conflicts, i.e. when the time-of-day
trigger of target `i` (target minus `intervalHours`, mod 24 h) never lies in
the half-open wraparound window opened by target `j`'s trigger; in
particular, with `intervalHours = 5` and targets 14:00 and 18:00 validation
fails, because 18:00's trigger 13:00 lies inside [09:00, 14:00). -/
theorem conflict_validation_iff_no_pair :
    (∀ (ts : List Str) (iv : Int), (∀ s ∈ ts, isValidTimeFormat s = true) →
      (validateTargetTimesConflict ts iv = none ↔
        ∀ i j, i < ts.length → j < ts.length → i ≠ j →
          isTimeInRange (triggerOf ts iv i) (triggerOf ts iv j)
            (triggerOf ts iv j + iv * 3600) = false)) ∧
    (validateTargetTimesConflict ["14:00".toList, "18:00".toList] 5).isSome = true ∧
    isTimeInRange (timeDate 0 2000 1 1 18 0 - 5 * 3600) (timeDate 0 2000 1 1 14 0 - 5 * 3600)
      (timeDate 0 2000 1 1 14 0 - 5 * 3600 + 5 * 3600) = true := by
  refine ⟨?_, by decide, by decide⟩
  intro ts iv _
  rw [aux_validate_none_iff]
  have hlen : (parsedTimes ts).length = ts.length := List.length_map _ _
  constructor
  · intro h i j hi hj hij
    have hi2 : i < (parsedTimes ts).length := by omega
    have hj2 : j < (parsedTimes ts).length := by omega
    have h2 := h i j hi2 hj2 hij
    unfold conflictPair at h2
    rw [aux_triggerOf_eq iv hi2, aux_triggerOf_eq iv hj2]
    simpa using h2
  · intro h i j hi2 hj2 hij
    have hi : i < ts.length := by omega
    have hj : j < ts.length := by omega
    have h2 := h i j hi hj hij
    rw [aux_triggerOf_eq iv hi2, aux_triggerOf_eq iv hj2] at h2
    intro hP
    unfold conflictPair at hP
    rw [h2] at hP
    exact Bool.false_ne_true hP

/-- Witness for C1: the iff instantiated at the conflict-free configuration
09:00/14:00/19:00 with interval 5. -/
theorem conflict_validation_iff_no_pair_witness :
    validateTargetTimesConflict ["09:00".toList, "14:00".toList, "19:00".toList] 5 = none ↔
      ∀ i j, i < (["09:00".toList, "14:00".toList, "19:00".toList] : List Str).length →
          j < (["09:00".toList, "14:00".toList, "19:00".toList] : List Str).length → i ≠ j →
        isTimeInRange (triggerOf ["09:00".toList, "14:00".toList, "19:00".toList] 5 i)
          (triggerOf ["09:00".toList, "14:00".toList, "19:00".toList] 5 j)
          (triggerOf ["09:00".toList, "14:00".toList, "19:00".toList] 5 j + 5 * 3600) = false :=
  conflict_validation_iff_no_pair.1 ["09:00".toList, "14:00".toList, "19:00".toList] 5 (by decide)

/-- C3 (counterexample): at `start = end` the code's `isTimeInRange` takes
the wraparound branch and answers `true` for every `t` (full circle), while
the claimed semantics ("start ≤ end means ordinary containment", here
modelled verbatim as `specInInterval`) answers `false` (empty range):
t = 12:00, start = end = 22:00 in seconds-since-midnight. -/
theorem inInterval_degenerate_counterexample :
    isTimeInRange 43200 79200 79200 = true ∧ specInInterval 43200 79200 79200 = false := by
  decide

/-- C3 (amended): `isTimeInRange` tests membership in the half-open
wraparound range, with ordinary containment exactly when `start < end`
(seconds-since-midnight) and the midnight-spanning disjunction whenever
`start ≥ end`; the wraparound examples 23:30 ∈ [22:00, 02:00) and
12:00 ∉ [22:00, 02:00) behave as claimed. -/
theorem isTimeInRange_semantics_amended :
    (∀ t start stop : Int,
      (isTimeInRange t start stop = true ↔
        (if secOfDay start < secOfDay stop
         then secOfDay start ≤ secOfDay t ∧ secOfDay t < secOfDay stop
         else secOfDay start ≤ secOfDay t ∨ secOfDay t < secOfDay stop))) ∧
    isTimeInRange (timeDate 0 2000 1 1 23 30) (timeDate 0 2000 1 1 22 0)
      (timeDate 0 2000 1 1 2 0) = true ∧
    isTimeInRange (timeDate 0 2000 1 1 12 0) (timeDate 0 2000 1 1 22 0)
      (timeDate 0 2000 1 1 2 0) = false := by
  refine ⟨?_, by decide, by decide⟩
  intro t start stop
  simp only [isTimeInRange]
  by_cases hlt : secOfDay start < secOfDay stop
  · rw [if_pos hlt, if_pos hlt]
    simp
  · rw [if_neg hlt, if_neg hlt]
    simp

/-- C5: for well-formed targets, `CalculateDailyTriggers` produces exactly
one trigger per target at the absolute instant
`(date's local day at target) − intervalHours + bufferSeconds` (date-aware,
never clamped), sorted ascending by trigger instant; concretely, interval 5
and buffer 60 on 2024-10-04 with targets 09:00/14:00/19:00 yield
04:01, 09:01, 14:01 in that order. -/
theorem triggersForDate_formula_sorted :
    (∀ (off date : Int) (ts : List Str) (iv b : Int),
      (∀ s ∈ ts, isValidTimeFormat s = true) →
      (List.Sorted trigR (CalculateDailyTriggers off date ts iv b) ∧
        (CalculateDailyTriggers off date ts iv b).Perm
          (ts.map (fun s => ⟨s, localMidnight off date + (parseTime s).1 * 3600
                                + (parseTime s).2 * 60 - iv * 3600 + b⟩)))) ∧
    CalculateDailyTriggers 0 (timeDate 0 2024 10 4 0 0)
        ["09:00".toList, "14:00".toList, "19:00".toList] 5 60 =
      [⟨"09:00".toList, timeDate 0 2024 10 4 4 1⟩, ⟨"14:00".toList, timeDate 0 2024 10 4 9 1⟩,
       ⟨"19:00".toList, timeDate 0 2024 10 4 14 1⟩] := by
  refine ⟨?_, by decide⟩
  intro off date ts iv b hvalid
  refine ⟨aux_calc_sorted off date ts iv b, ?_⟩
  have hp := aux_calc_perm off date ts iv b
  rwa [aux_filterMap_eq_map_of_valid off date (iv * 3600) b hvalid] at hp

/-- Witness for C5 at a concrete single-target configuration. -/
theorem triggersForDate_formula_sorted_witness :
    List.Sorted trigR (CalculateDailyTriggers 0 0 ["08:00".toList] 5 60) ∧
    (CalculateDailyTriggers 0 0 ["08:00".toList] 5 60).Perm
      (([("08:00".toList : Str)]).map (fun s => ⟨s, localMidnight 0 0 + (parseTime s).1 * 3600
            + (parseTime s).2 * 60 - 5 * 3600 + 60⟩)) :=
  triggersForDate_formula_sorted.1 0 0 ["08:00".toList] 5 60 (by decide)

/-- C6 (code bug): with `targetTimes = ["18:00", "14:00", "06:00"]` and
interval 5, the conflicting pair per the algorithm is (18:00, 14:00):
18:00's trigger 13:00 lies in the window [09:00, 14:00) opened by 14:00's
trigger, while 06:00's trigger 01:00 does not (last two conjuncts).  Yet the
diagnostic names "06:00" — the source indexes the unsorted `targetTimes`
slice with positions of the *sorted* copy — and pairs it with trigger
"13:00", which belongs to 18:00. -/
theorem conflict_diagnostic_mispairs_sorted_indices :
    validateTargetTimesConflict ["18:00".toList, "14:00".toList, "06:00".toList] 5 =
      some ⟨"06:00".toList, "14:00".toList, "13:00".toList, "09:00".toList,
            "09:00".toList, "14:00".toList, 5⟩ ∧
    isTimeInRange (timeDate 0 2000 1 1 18 0 - 5 * 3600) (timeDate 0 2000 1 1 14 0 - 5 * 3600)
      (timeDate 0 2000 1 1 14 0 - 5 * 3600 + 5 * 3600) = true ∧
    isTimeInRange (timeDate 0 2000 1 1 6 0 - 5 * 3600) (timeDate 0 2000 1 1 14 0 - 5 * 3600)
      (timeDate 0 2000 1 1 14 0 - 5 * 3600 + 5 * 3600) = false := by
  decide

/-- C10: when `start` and `end` coincide as times-of-day the containment
test returns `true` for every `t` (the range behaves as the full 24-hour
circle); consequently, whenever `intervalHours` is a multiple of 24 every
ordered pair of distinct positions conflicts, so any target list with two or
more entries is rejected by the conflict validator. -/
theorem degenerate_interval_full_circle :
    (∀ t start stop : Int, secOfDay start = secOfDay stop → isTimeInRange t start stop = true) ∧
    (∀ (ts : List Str) (iv : Int), 24 ∣ iv → 2 ≤ ts.length →
      ((∀ i j, i < ts.length → j < ts.length → i ≠ j →
          isTimeInRange (triggerOf ts iv i) (triggerOf ts iv j)
            (triggerOf ts iv j + iv * 3600) = true) ∧
        (validateTargetTimesConflict ts iv).isSome = true)) := by
  have hA : ∀ t start stop : Int, secOfDay start = secOfDay stop →
      isTimeInRange t start stop = true := by
    intro t start stop h
    simp only [isTimeInRange]
    rw [h, if_neg (lt_irrefl _)]
    simp only [Bool.or_eq_true, decide_eq_true_eq]
    omega
  refine ⟨hA, ?_⟩
  intro ts iv hdvd hlen2
  obtain ⟨k, hk⟩ := hdvd
  have hwin : ∀ x : Int, secOfDay x = secOfDay (x + iv * 3600) := by
    intro x
    have hx : x + iv * 3600 = x + 86400 * k := by rw [hk]; ring
    rw [hx, aux_secOfDay_add_day_multiple]
  have hlen : (parsedTimes ts).length = ts.length := List.length_map _ _
  refine ⟨fun i j _ _ _ => hA _ _ _ (hwin _), ?_⟩
  rw [← Option.ne_none_iff_isSome]
  intro hnone
  rw [aux_validate_none_iff] at hnone
  exact hnone 0 1 (by omega) (by omega) (by omega)
    (hA _ _ _ (hwin ((parsedTimes ts)[1].toTime - iv * 3600)))

/-- Witness for C10: two targets an hour apart are rejected once the
interval is 24 hours. -/
theorem degenerate_interval_full_circle_witness :
    (∀ i j, i < (["10:00".toList, "11:00".toList] : List Str).length →
        j < (["10:00".toList, "11:00".toList] : List Str).length → i ≠ j →
        isTimeInRange (triggerOf ["10:00".toList, "11:00".toList] 24 i)
          (triggerOf ["10:00".toList, "11:00".toList] 24 j)
          (triggerOf ["10:00".toList, "11:00".toList] 24 j + 24 * 3600) = true) ∧
    (validateTargetTimesConflict ["10:00".toList, "11:00".toList] 24).isSome = true :=
  degenerate_interval_full_circle.2 ["10:00".toList, "11:00".toList] 24 ⟨1, by decide⟩ (by decide)

/-- C2 (counterexample): with a fixed local offset of +08:00 (28800 s) and
`now` = epoch second 1727992800 (06:00 local time on local day 20000), the
code's `now.Truncate(24*time.Hour)` lands on the *previous* local calendar
day, so `NextTrigger` disagrees with the spec-modelled local-start-of-day
search `specNextTrigger`, and the returned trigger instant is not even after
`now`. -/
theorem nextTrigger_local_day_counterexample :
    NextTrigger 28800 1727992800 ["09:00".toList] 5 60 ≠
      specNextTrigger 28800 1727992800 ["09:00".toList] 5 60 ∧
    (NextTrigger 28800 1727992800 ["09:00".toList] 5 60).1.TriggerTime ≤ 1727992800 := by
  decide

/-- C2 (amended): `NextTrigger` computes the triggers for
`today := now.Truncate(24h)`, a multiple of 24 h from the epoch (a UTC day
boundary — the local start of day only when the zone offset is a whole
number of days).  If some today-trigger is strictly after `now`, the
earliest such trigger is returned (one equal to `now` is skipped);
otherwise the earliest of the next day's triggers is returned, and that
fallback may lie at or before `now`. -/
theorem nextTrigger_search_rule_amended (off now : Int) (ts : List Str) (iv b : Int)
    (hne : ts ≠ []) (hvalid : ∀ s ∈ ts, isValidTimeFormat s = true) :
    ((∃ t ∈ CalculateDailyTriggers off (now - now % 86400) ts iv b, now < t.TriggerTime) →
      ((NextTrigger off now ts iv b).1 ∈ CalculateDailyTriggers off (now - now % 86400) ts iv b ∧
        now < (NextTrigger off now ts iv b).1.TriggerTime ∧
        (∀ u ∈ CalculateDailyTriggers off (now - now % 86400) ts iv b,
          now < u.TriggerTime → (NextTrigger off now ts iv b).1.TriggerTime ≤ u.TriggerTime) ∧
        (NextTrigger off now ts iv b).2 = now - now % 86400)) ∧
    ((∀ t ∈ CalculateDailyTriggers off (now - now % 86400) ts iv b, ¬ now < t.TriggerTime) →
      ((NextTrigger off now ts iv b).1 ∈
          CalculateDailyTriggers off (now - now % 86400 + 86400) ts iv b ∧
        (∀ u ∈ CalculateDailyTriggers off (now - now % 86400 + 86400) ts iv b,
          (NextTrigger off now ts iv b).1.TriggerTime ≤ u.TriggerTime) ∧
        (NextTrigger off now ts iv b).2 = now - now % 86400 + 86400)) :=
  ⟨fun hex => aux_nextTrigger_exists hex,
   fun hnone => aux_nextTrigger_tomorrow hnone
     (aux_calc_ne_nil off (now - now % 86400 + 86400) iv b hne hvalid)⟩

/-- Witness for C2: the today-branch at noon of epoch day 0 with the single
target 18:00 (its trigger 13:01 is still ahead). -/
theorem nextTrigger_search_rule_amended_witness :
    (NextTrigger 0 43200 ["18:00".toList] 5 60).1 ∈
        CalculateDailyTriggers 0 (43200 - 43200 % 86400) ["18:00".toList] 5 60 ∧
      (43200:Int) < (NextTrigger 0 43200 ["18:00".toList] 5 60).1.TriggerTime ∧
      (∀ u ∈ CalculateDailyTriggers 0 (43200 - 43200 % 86400) ["18:00".toList] 5 60,
        (43200:Int) < u.TriggerTime →
          (NextTrigger 0 43200 ["18:00".toList] 5 60).1.TriggerTime ≤ u.TriggerTime) ∧
      (NextTrigger 0 43200 ["18:00".toList] 5 60).2 = 43200 - 43200 % 86400 :=
  (nextTrigger_search_rule_amended 0 43200 ["18:00".toList] 5 60 (by decide) (by decide)).1
    ⟨⟨"18:00".toList, 46860⟩, by decide, by decide⟩

/-- C9 (counterexample): every hypothesis of the claim holds — interval 30
lies in (0, 168], buffer 0 in [0, 3600], the single well-formed target 00:00
is conflict-free — yet at `now` = noon of epoch day 0 `NextTrigger` returns
the trigger at −21600 (18:00 of the previous day): a 30-hour interval rolls
the trigger past the day boundary, and the "tomorrow" fallback still lies in
the past. -/
theorem nextTrigger_future_counterexample :
    ((0:Int) < 30 ∧ (30:Int) ≤ 168 ∧ (0:Int) ≤ 0 ∧ (0:Int) ≤ 3600) ∧
    (∀ s ∈ [("00:00".toList : Str)], isValidTimeFormat s = true) ∧
    validateTargetTimesConflict ["00:00".toList] 30 = none ∧
    ¬ (43200 < (NextTrigger 0 43200 ["00:00".toList] 30 0).1.TriggerTime) := by
  decide

/-- C9 (amended): with the further hypotheses that the zone offset is a
whole number of days and that no target's trigger rolls into the previous
calendar day (`intervalHours·3600 ≤ targetSecs + bufferSeconds` for each
target), the trigger returned by `NextTrigger` is strictly after `now`. -/
theorem nextTrigger_future_amended (off now : Int) (ts : List Str) (iv b : Int)
    (hoff : off % 86400 = 0)
    (hiv1 : 0 < iv) (hiv2 : iv ≤ 168) (hb1 : 0 ≤ b) (hb2 : b ≤ 3600)
    (hne : ts ≠ []) (hvalid : ∀ s ∈ ts, isValidTimeFormat s = true)
    (hconf : validateTargetTimesConflict ts iv = none)
    (hroll : ∀ s ∈ ts, iv * 3600 ≤ targetSecs s + b) :
    now < (NextTrigger off now ts iv b).1.TriggerTime := by
  by_cases hex : ∃ t ∈ CalculateDailyTriggers off (now - now % 86400) ts iv b,
      now < t.TriggerTime
  · exact (aux_nextTrigger_exists hex).2.1
  · have hnone : ∀ t ∈ CalculateDailyTriggers off (now - now % 86400) ts iv b,
        ¬ now < t.TriggerTime := by
      intro t ht hlt
      exact hex ⟨t, ht, hlt⟩
    obtain ⟨hmem, -, -⟩ := aux_nextTrigger_tomorrow hnone
      (aux_calc_ne_nil off (now - now % 86400 + 86400) iv b hne hvalid)
    rw [aux_mem_calc] at hmem
    obtain ⟨s, hs, hraw⟩ := hmem
    rw [aux_rawTrigger_of_valid (hvalid s hs)] at hraw
    injection hraw with hval
    have hT : (NextTrigger off now ts iv b).1.TriggerTime =
        localMidnight off (now - now % 86400 + 86400) + (parseTime s).1 * 3600
          + (parseTime s).2 * 60 - iv * 3600 + b := by
      rw [← hval]
    have hM : localMidnight off (now - now % 86400 + 86400) = now - now % 86400 + 86400 := by
      unfold localMidnight
      omega
    have hs2 := hroll s hs
    unfold targetSecs at hs2
    omega

/-- Witness for C9 (amended) at target 09:00, interval 5, buffer 60, noon of
epoch day 0, UTC. -/
theorem nextTrigger_future_amended_witness :
    (43200:Int) < (NextTrigger 0 43200 ["09:00".toList] 5 60).1.TriggerTime :=
  nextTrigger_future_amended 0 43200 ["09:00".toList] 5 60 (by decide) (by decide) (by decide)
    (by decide) (by decide) (by decide) (by decide) (by decide) (by decide)

/-- C4 (counterexample): at `now` = 2025-02-19T16:00 (UTC-as-local) with
targets 09:00/14:00/19:00, interval 5, buffer 60, the first call does not
return the 19:00 target's trigger at 2025-02-19T19:01: by the code's
formula that target's trigger is 14:01, already past at 16:00. -/
theorem nextTrigger_example_counterexample :
    (NextTrigger 0 (timeDate 0 2025 2 19 16 0)
        ["09:00".toList, "14:00".toList, "19:00".toList] 5 60).1 ≠
      ⟨"19:00".toList, timeDate 0 2025 2 19 19 1⟩ := by
  decide

/-- C4 (amended): the call at 2025-02-19T16:00 returns the 09:00 target's
trigger at 2025-02-20T04:01 (Feb 19's triggers 04:01, 09:01 and 14:01 have
all passed), and any call with `now` strictly between 2025-02-19T19:01 and
2025-02-20T04:01 returns that same trigger. -/
theorem nextTrigger_example_amended :
    NextTrigger 0 (timeDate 0 2025 2 19 16 0)
        ["09:00".toList, "14:00".toList, "19:00".toList] 5 60 =
      (⟨"09:00".toList, timeDate 0 2025 2 20 4 1⟩, timeDate 0 2025 2 20 0 0) ∧
    ∀ now : Int, timeDate 0 2025 2 19 19 1 < now → now < timeDate 0 2025 2 20 4 1 →
      (NextTrigger 0 now ["09:00".toList, "14:00".toList, "19:00".toList] 5 60).1 =
        ⟨"09:00".toList, timeDate 0 2025 2 20 4 1⟩ := by
  refine ⟨by decide, ?_⟩
  intro now h1 h2
  have e1 : timeDate 0 2025 2 19 19 1 = 1739991660 := by decide
  have e2 : timeDate 0 2025 2 20 4 1 = 1740024060 := by decide
  rw [e1] at h1
  rw [e2] at h2 ⊢
  by_cases hc : now < 1740009600
  · have htoday : now - now % 86400 = 1739923200 := by omega
    have hnone : ∀ t ∈ CalculateDailyTriggers 0 (now - now % 86400)
        ["09:00".toList, "14:00".toList, "19:00".toList] 5 60, ¬ now < t.TriggerTime := by
      rw [htoday]
      have hcalc : CalculateDailyTriggers 0 (1739923200:Int)
          ["09:00".toList, "14:00".toList, "19:00".toList] 5 60 =
          [⟨"09:00".toList, 1739937660⟩, ⟨"14:00".toList, 1739955660⟩,
           ⟨"19:00".toList, 1739973660⟩] := by decide
      rw [hcalc]
      intro t ht
      simp only [List.mem_cons, List.not_mem_nil, or_false] at ht
      rcases ht with rfl | rfl | rfl
      · intro hlt
        have hx : now < (1739937660:Int) := hlt
        omega
      · intro hlt
        have hx : now < (1739955660:Int) := hlt
        omega
      · intro hlt
        have hx : now < (1739973660:Int) := hlt
        omega
    have hne2 : CalculateDailyTriggers 0 (now - now % 86400 + 86400)
        ["09:00".toList, "14:00".toList, "19:00".toList] 5 60 ≠ [] := by
      rw [htoday]
      decide
    obtain ⟨hmem, hmin, -⟩ := aux_nextTrigger_tomorrow hnone hne2
    rw [htoday] at hmem hmin
    have hcalc2 : CalculateDailyTriggers 0 ((1739923200:Int) + 86400)
        ["09:00".toList, "14:00".toList, "19:00".toList] 5 60 =
        [⟨"09:00".toList, 1740024060⟩, ⟨"14:00".toList, 1740042060⟩,
         ⟨"19:00".toList, 1740060060⟩] := by decide
    rw [hcalc2] at hmem hmin
    have hle := hmin ⟨"09:00".toList, 1740024060⟩ (by simp)
    simp only [List.mem_cons, List.not_mem_nil, or_false] at hmem
    rcases hmem with he | he | he
    · rw [he]
    · exact absurd (he ▸ hle) (by decide)
    · exact absurd (he ▸ hle) (by decide)
  · have hc2 : (1740009600:Int) ≤ now := by omega
    have htoday : now - now % 86400 = 1740009600 := by omega
    have hex : ∃ t ∈ CalculateDailyTriggers 0 (now - now % 86400)
        ["09:00".toList, "14:00".toList, "19:00".toList] 5 60, now < t.TriggerTime := by
      rw [htoday]
      refine ⟨⟨"09:00".toList, 1740024060⟩, by decide, ?_⟩
      show now < (1740024060:Int)
      omega
    obtain ⟨hmem, -, hmin, -⟩ := aux_nextTrigger_exists hex
    rw [htoday] at hmem hmin
    have hcalc3 : CalculateDailyTriggers 0 (1740009600:Int)
        ["09:00".toList, "14:00".toList, "19:00".toList] 5 60 =
        [⟨"09:00".toList, 1740024060⟩, ⟨"14:00".toList, 1740042060⟩,
         ⟨"19:00".toList, 1740060060⟩] := by decide
    rw [hcalc3] at hmem hmin
    have hle := hmin ⟨"09:00".toList, 1740024060⟩ (by simp) (by show now < (1740024060:Int); omega)
    simp only [List.mem_cons, List.not_mem_nil, or_false] at hmem
    rcases hmem with he | he | he
    · rw [he]
    · exact absurd (he ▸ hle) (by decide)
    · exact absurd (he ▸ hle) (by decide)

/-- Witness for C4 (amended), second part at `now` = 2025-02-19T20:00. -/
theorem nextTrigger_example_amended_witness :
    (NextTrigger 0 (timeDate 0 2025 2 19 20 0)
        ["09:00".toList, "14:00".toList, "19:00".toList] 5 60).1 =
      ⟨"09:00".toList, timeDate 0 2025 2 20 4 1⟩ :=
  nextTrigger_example_amended.2 (timeDate 0 2025 2 19 20 0) (by decide) (by decide)

/-- C7: when the external action fails in an iteration, the loop neither
terminates nor propagates the error: the action was invoked, its failure is
only logged, and the iteration continues with the next trigger recomputed
by `NextTrigger` from the fresh clock read taken after the firing. -/
theorem action_failure_contained (off : Int) (cfg : SchedulerConfig) (cur : DailyTrigger)
    (env : IterEnv) (e : Str)
    (htop : env.ctxDoneAtTop = false)
    (hwait : env.nowAtTop < cur.TriggerTime → env.waitOutcome = WaitOutcome.timer)
    (herr : env.triggerErr = some e) :
    schedulerIter off cfg cur env =
      IterResult.continues true true
        (NextTrigger off env.nowAfterFire cfg.TargetTimes cfg.IntervalHours
          cfg.SafetyBufferSeconds).1
        (NextTrigger off env.nowAfterFire cfg.TargetTimes cfg.IntervalHours
          cfg.SafetyBufferSeconds).2 := by
  by_cases hfut : env.nowAtTop < cur.TriggerTime
  · simp only [schedulerIter, fireStep, htop, herr, hwait hfut, Bool.false_eq_true, if_false,
      if_pos hfut, Option.isSome_some]
  · simp only [schedulerIter, fireStep, htop, herr, Bool.false_eq_true, if_false,
      if_neg hfut, Option.isSome_some]

/-- Witness for C7 at a concrete environment whose action fails. -/
theorem action_failure_contained_witness :
    schedulerIter 0 ⟨5, ["09:00".toList], 60⟩ ⟨"09:00".toList, 100⟩
        ⟨false, WaitOutcome.timer, some ['e'], 0, 50⟩ =
      IterResult.continues true true
        (NextTrigger 0 50 ["09:00".toList] 5 60).1 (NextTrigger 0 50 ["09:00".toList] 5 60).2 :=
  action_failure_contained 0 ⟨5, ["09:00".toList], 60⟩ ⟨"09:00".toList, 100⟩
    ⟨false, WaitOutcome.timer, some ['e'], 0, 50⟩ ['e'] rfl (fun _ => rfl) rfl

/-- C8: when the trigger instant is still in the future and cancellation is
observed while waiting, the iteration terminates the loop immediately and
`platform.Trigger` is not invoked for the pending trigger. -/
theorem cancellation_during_wait_no_fire (off : Int) (cfg : SchedulerConfig)
    (cur : DailyTrigger) (env : IterEnv)
    (htop : env.ctxDoneAtTop = false)
    (hfut : env.nowAtTop < cur.TriggerTime)
    (hcancel : env.waitOutcome = WaitOutcome.ctxDone) :
    schedulerIter off cfg cur env = IterResult.terminated false := by
  simp only [schedulerIter, htop, Bool.false_eq_true, if_false, if_pos hfut, hcancel]

/-- Witness for C8 at a concrete environment cancelled during the wait. -/
theorem cancellation_during_wait_no_fire_witness :
    schedulerIter 0 ⟨5, ["09:00".toList], 60⟩ ⟨"09:00".toList, 100⟩
        ⟨false, WaitOutcome.ctxDone, none, 0, 50⟩ =
      IterResult.terminated false :=
  cancellation_during_wait_no_fire 0 ⟨5, ["09:00".toList], 60⟩ ⟨"09:00".toList, 100⟩
    ⟨false, WaitOutcome.ctxDone, none, 0, 50⟩ rfl (by decide) rfl
